import Mathlib

set_option maxRecDepth 8192

/-!
# Go-IM: verification of the message-routing core

A shallow embedding in Lean 4 of the parts of the Go-IM gateway that the
specification's testable properties talk about:

* the length-prefixed frame codec (`protocol.Pack` / `protocol.Unpack`);
* the offline mailbox (`OfflineManager.Store` / `Fetch` / `FetchLatest` /
  `Remove`), modelled as a finite set of `seqID` scores, mirroring the
  Redis sorted-set operations the Go code issues;
* the per-connection non-blocking `Send` (a Go `select` over the outbound
  queue, the close signal and a `default` branch, modelled as the set of
  outcomes the select statement can choose);
* the connection registry (`BindUser` / `GetByUserID` / `Remove`);
* the message dispatcher (`SendPrivateMessage`, `DeliverOfflineMessages`,
  `handleAuth`), with the Redis-backed collaborators (sequence allocator,
  session directory) passed in as oracles.

Machine integers are embedded as `Nat` (byte values, `u16`, `u32`) and
`Int` (Go `int64` sequence numbers); byte strings are `List Nat` with the
range constraint carried as an explicit well-formedness hypothesis where
it matters.
-/

namespace GoIM

/-! ## Frame codec (`protocol` package, `Pack` / `Unpack`)

The wire format is `length:u32be | version:u16be | cmdType:u16be | body`,
where `length = 4 + |body|` and `|body| ≤ MaxPayloadLength`.
-/

namespace Protocol

/-- `MaxPayloadLength = 1024 * 1024`: the 1 MiB cap on a frame body. -/
def MaxPayloadLength : Nat := 1024 * 1024

/-- `ProtocolVersion = 1`: the version `Pack` stamps into every frame. -/
def ProtocolVersion : Nat := 1

/-- `HeaderLength = 8`: Length(4) + Version(2) + CmdType(2). -/
def HeaderLength : Nat := 8

/-- The `protocol.Message` struct: `Length uint32`, `Version uint16`,
`CmdType uint16`, `Body []byte`.  Machine words are `Nat` with their range
tracked by hypotheses; the body is a list of byte values. -/
structure Message where
  length : Nat
  version : Nat
  cmdType : Nat
  body : List Nat
deriving DecidableEq, Repr

/-- A message the Go type system could hold: `CmdType` fits in a `uint16`
and every body element is a byte.  (`Length` and `Version` are overwritten
by `Pack`, so no constraint on them is needed.) -/
def WfMessage (m : Message) : Prop :=
  m.cmdType < 2 ^ 16 ∧ ∀ b ∈ m.body, b < 256

/-- Big-endian serialisation of a `uint32` (`binary.BigEndian.PutUint32`). -/
def u32be (n : Nat) : List Nat :=
  [n / 2 ^ 24 % 256, n / 2 ^ 16 % 256, n / 2 ^ 8 % 256, n % 256]

/-- Big-endian serialisation of a `uint16` (`binary.BigEndian.PutUint16`). -/
def u16be (n : Nat) : List Nat :=
  [n / 2 ^ 8 % 256, n % 256]

/-- Big-endian read of a `uint32` from four bytes (`binary.BigEndian.Uint32`). -/
def be32 (b0 b1 b2 b3 : Nat) : Nat :=
  ((b0 * 256 + b1) * 256 + b2) * 256 + b3

/-- Big-endian read of a `uint16` from two bytes (`binary.BigEndian.Uint16`). -/
def be16 (b0 b1 : Nat) : Nat :=
  b0 * 256 + b1

/-- `Pack`'s only error: `ErrPayloadTooLarge`. -/
inductive PackError where
  | payloadTooLarge
deriving DecidableEq, Repr

/-- `Unpack`'s errors: a short read from `io.ReadFull` (EOF /
`ErrUnexpectedEOF`), `ErrInvalidHeader`, `ErrPayloadTooLarge`. -/
inductive UnpackError where
  | shortRead
  | invalidHeader
  | payloadTooLarge
deriving DecidableEq, Repr

/-- The header+body bytes `Pack` emits for `msg` (before the size check):
`Length = 4 + |body|`, `Version = ProtocolVersion`, then `CmdType` and the
body. -/
def packBytes (msg : Message) : List Nat :=
  u32be (4 + msg.body.length) ++ u16be ProtocolVersion ++ u16be msg.cmdType ++ msg.body

/-- The message value as `Pack` leaves it: the Go function mutates
`msg.Length` to `4 + len(msg.Body)` and `msg.Version` to
`ProtocolVersion` in place before serialising. -/
def packedView (msg : Message) : Message :=
  { msg with length := 4 + msg.body.length, version := ProtocolVersion }

/-- `protocol.Pack`: rejects bodies over `MaxPayloadLength`, otherwise
sets `Length` and `Version` on the message and emits header + body.
Because the Go function mutates its argument, the result pairs the
updated message with the produced bytes. -/
def Pack (msg : Message) : Except PackError (Message × List Nat) :=
  if msg.body.length > MaxPayloadLength then
    .error .payloadTooLarge
  else
    .ok (packedView msg, packBytes msg)

/-- `protocol.Unpack` on a byte stream: read exactly 8 header bytes (a
shorter stream is a failed `io.ReadFull`), parse the three header fields,
reject `Length < 4` (`bodyLen < 0` in the Go code) as `ErrInvalidHeader`
and `bodyLen > MaxPayloadLength` as `ErrPayloadTooLarge`, then read
exactly `bodyLen` body bytes.  Returns the decoded message and the
remainder of the stream. -/
def Unpack (s : List Nat) : Except UnpackError (Message × List Nat) :=
  match s with
  | b0 :: b1 :: b2 :: b3 :: b4 :: b5 :: b6 :: b7 :: rest =>
    let len := be32 b0 b1 b2 b3
    if len < 4 then
      .error .invalidHeader
    else
      let bodyLen := len - 4
      if bodyLen > MaxPayloadLength then
        .error .payloadTooLarge
      else if rest.length < bodyLen then
        .error .shortRead
      else
        .ok ({ length := len, version := be16 b4 b5, cmdType := be16 b6 b7,
               body := rest.take bodyLen }, rest.drop bodyLen)
  | _ => .error .shortRead

/-- Encode a sequence of messages into one byte stream by concatenating
the frames `Pack` produces (what a sender does on one socket). -/
def packStream : List Message → Except PackError (List Nat)
  | [] => .ok []
  | m :: ms =>
    match Pack m, packStream ms with
    | .ok (_, bs), .ok rest => .ok (bs ++ rest)
    | .error e, _ => .error e
    | .ok _, .error e => .error e

/-- Decode `n` consecutive frames from a byte stream with `Unpack`,
returning the messages in order and the unconsumed remainder (the read
loop calls `Unpack` once per iteration on the same buffered reader). -/
def unpackN : Nat → List Nat → Except UnpackError (List Message × List Nat)
  | 0, s => .ok ([], s)
  | n + 1, s =>
    match Unpack s with
    | .error e => .error e
    | .ok (m, rest) =>
      match unpackN n rest with
      | .error e => .error e
      | .ok (ms, rest') => .ok (m :: ms, rest')

/-- Two concrete frames used to witness the round-trip theorem. -/
def msgHello : Message :=
  { length := 0, version := 0, cmdType := 4, body := [104, 101, 108, 108, 111] }

/-- A concrete heartbeat frame with an empty body. -/
def msgPing : Message :=
  { length := 0, version := 0, cmdType := 1, body := [] }

end Protocol

/-! ## Offline mailbox (`service.OfflineManager`)

The Go code keeps one Redis sorted set `msg_box:<userID>` per user, whose
members are message JSON blobs scored by `SeqID`.  The claims below are
about mailboxes whose entries have pairwise-distinct `seqID`s, so a
mailbox is embedded as the finite set of its scores (`Finset ℤ`, Go
`int64`); each operation mirrors the Redis command the Go method issues.
-/

namespace OfflineManager

/-- `MaxOfflineMessages = 1000`: the per-user mailbox cap `M_max`. -/
def MaxOfflineMessages : Nat := 1000

/-- Number of entries strictly above `y` in the sorted set: `y`'s rank
counted from the highest score downwards. -/
def rankAbove (s : Finset ℤ) (y : ℤ) : Nat :=
  (s.filter (fun z => y < z)).card

/-- The trim step of `Store`: `ZREMRANGEBYRANK key 0 -(MaxOfflineMessages+1)`
deletes the lowest-ranked entries and keeps the `MaxOfflineMessages`
highest-scored ones — exactly those with fewer than `MaxOfflineMessages`
entries above them. -/
def trim (s : Finset ℤ) : Finset ℤ :=
  s.filter (fun y => rankAbove s y < MaxOfflineMessages)

/-- `OfflineManager.Store`: `ZADD` the entry scored by its seqID, then
trim to the `MaxOfflineMessages` highest (the `EXPIRE` refresh has no
content in this model). -/
def Store (s : Finset ℤ) (seqID : ℤ) : Finset ℤ :=
  trim (insert seqID s)

/-- `OfflineManager.Remove`: `ZREMRANGEBYSCORE key -inf maxSeqID` deletes
every entry with score `≤ maxSeqID`, keeping exactly the scores above it. -/
def Remove (s : Finset ℤ) (maxSeqID : ℤ) : Finset ℤ :=
  s.filter (fun y => maxSeqID < y)

/-- `OfflineManager.Count`: `ZCARD`. -/
def Count (s : Finset ℤ) : Nat :=
  s.card

/-- `OfflineManager.FetchLatest`: `ZREVRANGE key 0 count-1` — the `count`
highest-scored entries, highest first (descending seqID). -/
def FetchLatest (s : Finset ℤ) (count : Nat) : List ℤ :=
  ((s.sort (· ≤ ·)).reverse).take count

/-- `OfflineManager.Fetch`: `ZRANGEBYSCORE key startSeq +inf LIMIT 0 count`
— entries with score `≥ startSeq`, ascending, at most `count`. -/
def Fetch (s : Finset ℤ) (startSeq : ℤ) (count : Nat) : List ℤ :=
  ((s.filter (fun y => startSeq ≤ y)).sort (· ≤ ·)).take count

/-- A concrete run of 1001 distinct seqIDs (0..1000), used to witness the
cap theorem. -/
def seqRun : List ℤ :=
  (List.range 1001).map Int.ofNat

end OfflineManager

/-! ## Connection send path (`server.Connection.Send`)

`Send` packs the message and then runs a Go `select` with three cases:
a send on the buffered `writeChan` (capacity 256), a receive from the
closed `closeChan`, and a `default`.  Go chooses uniformly among the
*ready* cases and takes `default` only when none is ready, so `Send` is
embedded as the list of outcomes the select can produce in a given
connection state. -/

namespace Server

/-- `writeChan`'s buffer capacity: `make(chan []byte, 256)`. -/
def writeChanCap : Nat := 256

/-- The three ways `Send`'s select can resolve. -/
inductive SendResult where
  /-- `writeChan <- data` proceeded: the frame is queued, `Send` returns `nil`. -/
  | enqueued
  /-- `<-closeChan` proceeded (the close signal has fired): `Send` returns
  `net.ErrClosed`, the spec's `ConnectionClosed`. -/
  | closedErr
  /-- `default`: no case ready — the frame is dropped and `Send` returns `nil`. -/
  | dropped
deriving DecidableEq, Repr

/-- Whether `Send` returns `nil` (success) for an outcome. -/
def SendResult.returnsNil : SendResult → Bool
  | .closedErr => false
  | _ => true

/-- The state of a connection as far as `Send` can observe it: whether
`closeChan` is closed, and how many frames sit in `writeChan`. -/
structure ConnState where
  closed : Bool
  queueLen : Nat
deriving DecidableEq, Repr

/-- The outcomes `Send`'s select statement can produce in state `st`:
the enqueue case is ready iff the buffer has space, the close case is
ready iff the close signal fired, and `default` (drop) runs only when
neither is ready. -/
def sendOutcomes (st : ConnState) : List SendResult :=
  let ready :=
    (if st.queueLen < writeChanCap then [SendResult.enqueued] else []) ++
    (if st.closed then [SendResult.closedErr] else [])
  if ready.isEmpty then [SendResult.dropped] else ready

/-! ## Connection registry (`server.ConnectionManager`)

Two `sync.Map`s, `connID → conn` and `userID → conn`, plus the `UserID`
field stored on each `Connection` (set by `BindUser`, never cleared).
Connections are named by their `connID`; `connUser` is the heap of
per-connection `UserID` fields (`""` when unbound). -/

/-- The registry state: the `userConns` map (userID to the connID of the
stored connection pointer), the `connections` map (which connIDs are
present), and each connection's `UserID` field. -/
structure RegistryState where
  userConns : String → Option Nat
  connections : Nat → Bool
  connUser : Nat → String

/-- The registry of a fresh gateway: both maps empty, no connection
bound to any user. -/
def emptyRegistry : RegistryState :=
  { userConns := fun _ => none, connections := fun _ => false, connUser := fun _ => "" }

/-- `ConnectionManager.Add`: store the connection in the `connID → conn` map. -/
def Add (connID : Nat) (st : RegistryState) : RegistryState :=
  { st with connections := fun c => if c = connID then true else st.connections c }

/-- `ConnectionManager.BindUser`: `conn.SetUserID(uid)` then
`userConns.Store(uid, conn)` — sets the connection's `UserID` field and
(re)points the user entry at this connection. -/
def BindUser (uid : String) (connID : Nat) (st : RegistryState) : RegistryState :=
  { st with
    connUser := fun c => if c = connID then uid else st.connUser c,
    userConns := fun u => if u = uid then some connID else st.userConns u }

/-- `ConnectionManager.Remove`: delete the connection from the
`connID → conn` map, and if the connection's own `UserID` field is
non-empty, delete that userID's entry from `userConns` — keyed by the
removed connection's bound userID, regardless of which connection the
entry currently points to. -/
def Remove (connID : Nat) (st : RegistryState) : RegistryState :=
  { st with
    connections := fun c => if c = connID then false else st.connections c,
    userConns :=
      if st.connUser connID ≠ "" then
        fun u => if u = st.connUser connID then none else st.userConns u
      else st.userConns }

/-- `ConnectionManager.GetByUserID`: look the user up in `userConns`
(`nil` when absent). -/
def GetByUserID (uid : String) (st : RegistryState) : Option Nat :=
  st.userConns uid

end Server

/-! ## Message dispatcher (`service.MessageHandler`, `App.handleAuth`)

The Redis-backed collaborators (sequence allocator, session directory)
appear as oracles: functions returning `Except` results, one per call
the dispatcher makes. -/

namespace Service

/-- An error from the shared store as the dispatcher observes it:
`redis.Nil` (key absent — for `GetUserGateway` this means the user is
not online) or any other failure (store unreachable, timeout). -/
inductive StoreErr where
  | nilKey
  | unreachable
deriving DecidableEq, Repr

/-- `getConversationID`: the symmetric conversation key — the
lexicographically smaller userID, a colon, the larger. -/
def getConversationID (user1 user2 : String) : String :=
  if user1 < user2 then user1 ++ ":" ++ user2 else user2 ++ ":" ++ user1

/-- The ways `SendPrivateMessage` can resolve: propagate the sequence
allocator's error, store to the recipient's offline mailbox, deliver to
a local connection, or publish to another gateway's channel.  Each
delivery action records the seqID the message carries. -/
inductive DispatchAction where
  | failed (e : StoreErr)
  | storeOffline (toUserID : String) (seqID : ℤ)
  | deliverLocal (toUserID : String) (seqID : ℤ)
  | publishRemote (gatewayID toUserID : String) (seqID : ℤ)
deriving DecidableEq, Repr

/-- `MessageHandler.SendPrivateMessage`: allocate the next seqID for the
symmetric conversation; on allocator failure return the error.  Then
look up the recipient's gateway in the session directory: on any lookup
error (`redis.Nil` — not online — or store failure) store the message,
with the already-allocated seqID, into the recipient's offline mailbox
and return; on success deliver locally when the gateway is this one,
otherwise publish to the target gateway.  `nextSeq` and
`getUserGateway` are the store-backed collaborators as oracles. -/
def SendPrivateMessage (gatewayID : String)
    (nextSeq : String → Except StoreErr ℤ)
    (getUserGateway : String → Except StoreErr String)
    (fromUserID toUserID : String) : DispatchAction :=
  match nextSeq (getConversationID fromUserID toUserID) with
  | .error e => .failed e
  | .ok seqID =>
    match getUserGateway toUserID with
    | .error _ => .storeOffline toUserID seqID
    | .ok targetGateway =>
      if targetGateway = gatewayID then .deliverLocal toUserID seqID
      else .publishRemote targetGateway toUserID seqID

/-- `MessageHandler.DeliverOfflineMessages`: fetch the latest 100 mailbox
entries with `FetchLatest` and send each to the connection in iteration
order, without reversing.  The value is the sequence of seqIDs in the
order they are written to the connection. -/
def DeliverOfflineMessages (mailbox : Finset ℤ) : List ℤ :=
  OfflineManager.FetchLatest mailbox 100

/-- The payload of a validated token (`service.Claims`): the fields
`handleAuth` uses. -/
structure Claims where
  userID : String
  username : String
deriving DecidableEq, Repr

/-- `ValidateToken`'s errors: `ErrInvalidToken` or `ErrTokenExpired`. -/
inductive AuthErr where
  | invalidToken
  | tokenExpired
deriving DecidableEq, Repr

/-- The error string `handleAuth` echoes into a failed AuthAck. -/
def authErrMessage : AuthErr → String
  | .invalidToken => "invalid token"
  | .tokenExpired => "token expired"

/-- What `App.handleAuth` observably does: the AuthAck reply it sends,
whether it bound a user in the registry (and whom), and whether it
started offline delivery. -/
structure AuthOutcome where
  replySuccess : Bool
  replyMessage : String
  bound : Option String
  deliverStarted : Bool
deriving DecidableEq, Repr

/-- `App.handleAuth`: parse the `{"token":...}` body (`none` =
unparseable, replied with `success:false, "Invalid request"`); validate
the token (failure replied with `success:false` and the error text, user
left unbound).  On success: `BindUser(claims.UserID, conn)`, then
`session.Login` — whose result `loginResult` is only logged, so the
outcome does not depend on it — then reply
`AuthAck{success:true, message:userID}` and start offline delivery. -/
def handleAuth (tokenParse : Option String)
    (validateToken : String → Except AuthErr Claims)
    (loginResult : Except StoreErr Unit) : AuthOutcome :=
  match tokenParse with
  | none =>
    { replySuccess := false, replyMessage := "Invalid request",
      bound := none, deliverStarted := false }
  | some tok =>
    match validateToken tok with
    | .error e =>
      { replySuccess := false, replyMessage := authErrMessage e,
        bound := none, deliverStarted := false }
    | .ok claims =>
      { replySuccess := true, replyMessage := claims.userID,
        bound := some claims.userID, deliverStarted := true }

end Service

/-! ## Theorems -/

namespace Protocol

/-- `Pack` succeeds exactly on bodies within the 1 MiB cap, producing the
updated message and its frame bytes. -/
theorem pack_ok {m : Message} (hlen : m.body.length ≤ MaxPayloadLength) :
    Pack m = .ok (packedView m, packBytes m) := by
  unfold Pack
  rw [if_neg (by omega)]

/-- Decoding a frame produced by `Pack` from the front of any stream
recovers the packed message and leaves the rest of the stream intact. -/
theorem unpack_packBytes (m : Message) (hcmd : m.cmdType < 2 ^ 16)
    (hlen : m.body.length ≤ MaxPayloadLength) (rest : List Nat) :
    Unpack (packBytes m ++ rest) = .ok (packedView m, rest) := by
  have hM : MaxPayloadLength = 1024 * 1024 := rfl
  have h32 : 4 + m.body.length < 2 ^ 32 := by omega
  have hbe32 : be32 ((4 + m.body.length) / 2 ^ 24 % 256) ((4 + m.body.length) / 2 ^ 16 % 256)
      ((4 + m.body.length) / 2 ^ 8 % 256) ((4 + m.body.length) % 256) = 4 + m.body.length := by
    unfold be32
    omega
  have hbe16v : be16 (ProtocolVersion / 2 ^ 8 % 256) (ProtocolVersion % 256) = ProtocolVersion :=
    rfl
  have hbe16c : be16 (m.cmdType / 2 ^ 8 % 256) (m.cmdType % 256) = m.cmdType := by
    unfold be16
    omega
  have hsub : 4 + m.body.length - 4 = m.body.length := by omega
  have happ : (m.body ++ rest).length = m.body.length + rest.length := List.length_append _ _
  unfold packBytes u32be u16be
  simp only [List.cons_append, List.nil_append]
  unfold Unpack
  simp only [hbe32, hbe16v, hbe16c, hsub]
  rw [if_neg (by omega), if_neg (by omega), if_neg (by omega)]
  simp only [packedView]
  rw [List.take_left, List.drop_left]

/-- C1.  Round-trip of the frame codec, on single frames and on streams:
for well-formed messages with bodies at most 1 MiB, `Pack` succeeds and
`Unpack` on the produced bytes recovers the message exactly as `Pack`
left it (`Pack` mutates its argument, setting `Length := 4 + |body|` and
`Version := ProtocolVersion`, so `packedView m` IS the encoded message:
its `cmdType` and `body` are the original ones and its version is the
protocol version `Pack` wrote).  Concatenating the frames of a list of
messages and decoding the stream frame-by-frame yields exactly the
original sequence, in order, consuming the whole stream. -/
theorem pack_unpack_roundtrip :
    (∀ m : Message, WfMessage m → m.body.length ≤ MaxPayloadLength →
      Pack m = .ok (packedView m, packBytes m) ∧
      Unpack (packBytes m) = .ok (packedView m, []) ∧
      (packedView m).cmdType = m.cmdType ∧ (packedView m).body = m.body ∧
      (packedView m).version = ProtocolVersion) ∧
    (∀ ms : List Message, (∀ m ∈ ms, WfMessage m ∧ m.body.length ≤ MaxPayloadLength) →
      ∃ bs, packStream ms = .ok bs ∧
        unpackN ms.length bs = .ok (ms.map packedView, [])) := by
  constructor
  · intro m hwf hlen
    refine ⟨pack_ok hlen, ?_, rfl, rfl, rfl⟩
    have := unpack_packBytes m hwf.1 hlen []
    rwa [List.append_nil] at this
  · intro ms h
    induction ms with
    | nil => exact ⟨[], rfl, rfl⟩
    | cons m ms ih =>
      obtain ⟨⟨hcmd, -⟩, hlen⟩ := h m (List.mem_cons_self _ _)
      obtain ⟨bs, hpack, hunpack⟩ := ih fun x hx => h x (List.mem_cons_of_mem _ hx)
      refine ⟨packBytes m ++ bs, ?_, ?_⟩
      · unfold packStream
        rw [pack_ok hlen, hpack]
      · show unpackN (ms.length + 1) (packBytes m ++ bs) = _
        simp only [unpackN, unpack_packBytes m hcmd hlen bs, hunpack, List.map_cons]

/-- Witness for C1: the round-trip theorem applied to a concrete
two-message stream. -/
theorem pack_unpack_roundtrip_witness :
    ∃ bs, packStream [msgHello, msgPing] = .ok bs ∧
      unpackN ([msgHello, msgPing].length) bs =
        .ok ([msgHello, msgPing].map packedView, []) := by
  refine pack_unpack_roundtrip.2 [msgHello, msgPing] ?_
  intro m hm
  simp only [List.mem_cons, List.not_mem_nil, or_false] at hm
  rcases hm with h | h <;> subst h <;> exact ⟨⟨by decide, by decide⟩, by decide⟩

/-- C3 counterexample: a header whose version field is 2 (not the
recognised protocol version 1) but whose length field is valid is
decoded successfully — `Unpack` does not fail with `InvalidHeader` on an
unrecognised version, because it never inspects the version field. -/
theorem unpack_accepts_unknown_version :
    Unpack [0, 0, 0, 4, 0, 2, 0, 1] =
      .ok ({ length := 4, version := 2, cmdType := 1, body := [] }, []) ∧
    (2 : Nat) ≠ ProtocolVersion ∧
    Unpack [0, 0, 0, 4, 0, 2, 0, 1] ≠ .error .invalidHeader := by
  refine ⟨rfl, by decide, ?_⟩
  intro h
  rw [show Unpack [0, 0, 0, 4, 0, 2, 0, 1] =
      .ok ({ length := 4, version := 2, cmdType := 1, body := [] }, []) from rfl] at h
  exact Except.noConfusion h

/-- C3 (amended).  `Unpack` fails with `InvalidHeader` exactly when the
header's length field is less than 4; the version field plays no role in
the decision (frames with any version value are decoded).  On streams
shorter than a header no `InvalidHeader` is ever reported (the failure
is a short read). -/
theorem unpack_invalidHeader_iff :
    (∀ b0 b1 b2 b3 b4 b5 b6 b7 : Nat, ∀ rest : List Nat,
      Unpack (b0 :: b1 :: b2 :: b3 :: b4 :: b5 :: b6 :: b7 :: rest) = .error .invalidHeader ↔
        be32 b0 b1 b2 b3 < 4) ∧
    (∀ s : List Nat, s.length < 8 → Unpack s = .error .shortRead) := by
  constructor
  · intro b0 b1 b2 b3 b4 b5 b6 b7 rest
    by_cases h : be32 b0 b1 b2 b3 < 4
    · simp [Unpack, h]
    · simp only [Unpack, h, if_false, iff_false]
      split
      · intro hc
        exact UnpackError.noConfusion (Except.error.inj hc)
      · split
        · intro hc
          exact UnpackError.noConfusion (Except.error.inj hc)
        · intro hc
          exact Except.noConfusion hc
  · intro s hs
    match s, hs with
    | [], _ => rfl
    | [_], _ => rfl
    | [_, _], _ => rfl
    | [_, _, _], _ => rfl
    | [_, _, _, _], _ => rfl
    | [_, _, _, _, _], _ => rfl
    | [_, _, _, _, _, _], _ => rfl
    | [_, _, _, _, _, _, _], _ => rfl
    | _ :: _ :: _ :: _ :: _ :: _ :: _ :: _ :: _ :: _, hs => exact absurd hs (by simp)

end Protocol

namespace OfflineManager

/-- Trimming only removes entries. -/
theorem trim_subset (s : Finset ℤ) : trim s ⊆ s :=
  Finset.filter_subset _ _

/-- Membership in a trimmed mailbox. -/
theorem mem_trim {s : Finset ℤ} {y : ℤ} :
    y ∈ trim s ↔ y ∈ s ∧ rankAbove s y < MaxOfflineMessages :=
  Finset.mem_filter

/-- Trimming keeps the top: every kept entry is strictly above every
removed one. -/
theorem trim_keeps_top {s : Finset ℤ} {r e : ℤ}
    (hr : r ∈ trim s) (he : e ∈ s) (hne : e ∉ trim s) : e < r := by
  rw [mem_trim] at hr
  have hrank_e : MaxOfflineMessages ≤ rankAbove s e := by
    by_contra hlt
    exact hne (mem_trim.mpr ⟨he, by omega⟩)
  rcases lt_trichotomy e r with h | h | h
  · exact h
  · exact absurd (h ▸ hr) (fun hc => hne (mem_trim.mpr hc))
  · exfalso
    have hsub : s.filter (fun z => e < z) ⊆ s.filter (fun z => r < z) := by
      intro z hz
      rw [Finset.mem_filter] at hz ⊢
      exact ⟨hz.1, lt_trans h hz.2⟩
    have hcard := Finset.card_le_card hsub
    have hrank_r := hr.2
    unfold rankAbove at hrank_e hrank_r hcard
    omega

/-- An entry's rank from the top is below the mailbox size. -/
theorem rankAbove_lt_card {s : Finset ℤ} {y : ℤ} (hy : y ∈ s) :
    rankAbove s y < s.card := by
  have hsub : s.filter (fun z => y < z) ⊆ s.erase y := by
    intro z hz
    rw [Finset.mem_filter] at hz
    rw [Finset.mem_erase]
    refine ⟨?_, hz.1⟩
    rintro rfl
    exact lt_irrefl _ hz.2
  have h1 := Finset.card_le_card hsub
  have h2 : (s.erase y).card < s.card := Finset.card_erase_lt_of_mem hy
  unfold rankAbove
  omega

/-- A mailbox within the cap is untouched by trimming. -/
theorem trim_eq_self {s : Finset ℤ} (h : s.card ≤ MaxOfflineMessages) : trim s = s := by
  apply Finset.filter_true_of_mem
  intro y hy
  have := rankAbove_lt_card hy
  omega

/-- Over the cap, trimming a mailbox agrees with trimming it after its
least entry is dropped (the least entry is evicted anyway, and the ranks
of the others do not change). -/
theorem trim_erase_min {s : Finset ℤ} {m : ℤ} (hm : m ∈ s) (hmin : ∀ y ∈ s, m ≤ y)
    (hcard : MaxOfflineMessages < s.card) : trim s = trim (s.erase m) := by
  have hfm : s.filter (fun z => m < z) = s.erase m := by
    ext z
    rw [Finset.mem_filter, Finset.mem_erase]
    constructor
    · rintro ⟨hz, hlt⟩
      exact ⟨ne_of_gt hlt, hz⟩
    · rintro ⟨hne, hz⟩
      exact ⟨hz, lt_of_le_of_ne (hmin z hz) (Ne.symm hne)⟩
  have hrank_m : rankAbove s m = s.card - 1 := by
    unfold rankAbove
    rw [hfm, Finset.card_erase_of_mem hm]
  ext y
  rw [mem_trim, mem_trim]
  by_cases hy : y = m
  · subst hy
    constructor
    · rintro ⟨-, hrank⟩
      omega
    · rintro ⟨hmem, -⟩
      exact absurd rfl (Finset.mem_erase.mp hmem).1
  · have hrank : y ∈ s → rankAbove (s.erase m) y = rankAbove s y := by
      intro hys
      unfold rankAbove
      congr 1
      ext z
      rw [Finset.mem_filter, Finset.mem_filter, Finset.mem_erase]
      constructor
      · rintro ⟨⟨-, hz⟩, hlt⟩
        exact ⟨hz, hlt⟩
      · rintro ⟨hz, hlt⟩
        refine ⟨⟨?_, hz⟩, hlt⟩
        rintro rfl
        exact absurd hlt (not_lt.mpr (hmin y hys))
    constructor
    · rintro ⟨hys, hr⟩
      exact ⟨Finset.mem_erase.mpr ⟨hy, hys⟩, by rw [hrank hys]; exact hr⟩
    · rintro ⟨hyse, hr⟩
      have hys := (Finset.mem_erase.mp hyse).2
      exact ⟨hys, by rw [← hrank hys]; exact hr⟩

/-- A trimmed mailbox holds `min (card, M_max)` entries. -/
theorem card_trim (s : Finset ℤ) : (trim s).card = min s.card MaxOfflineMessages := by
  induction s using Finset.strongInduction with
  | _ s ih =>
    by_cases h : s.card ≤ MaxOfflineMessages
    · rw [trim_eq_self h, min_eq_left h]
    · push_neg at h
      have hne : s.Nonempty := Finset.card_pos.mp (by omega)
      have hmem := s.min'_mem hne
      have hmin : ∀ y ∈ s, s.min' hne ≤ y := fun y hy => s.min'_le y hy
      rw [trim_erase_min hmem hmin h, ih (s.erase (s.min' hne)) (Finset.erase_ssubset hmem),
        Finset.card_erase_of_mem hmem]
      omega

/-- Trimming before inserting does not change the final trimmed mailbox:
`trim (insert x (trim s)) = trim (insert x s)` for a fresh `x`.  This is
why a mailbox maintained by `Store` holds exactly the top entries of
everything ever inserted. -/
theorem trim_insert_trim (x : ℤ) : ∀ s : Finset ℤ, x ∉ s →
    trim (insert x (trim s)) = trim (insert x s) := by
  intro s
  induction s using Finset.strongInduction with
  | _ s ih =>
    intro hx
    by_cases h : s.card ≤ MaxOfflineMessages
    · rw [trim_eq_self h]
    · push_neg at h
      have hne : s.Nonempty := Finset.card_pos.mp (by omega)
      set m := s.min' hne with hmdef
      have hmem : m ∈ s := s.min'_mem hne
      have hmin : ∀ y ∈ s, m ≤ y := fun y hy => s.min'_le y hy
      have hxm : x ≠ m := fun hEq => hx (hEq ▸ hmem)
      rcases lt_or_gt_of_ne hxm with hlt | hgt
      · -- x is below the whole mailbox: it is evicted immediately on both sides
        have hcardR : MaxOfflineMessages < (insert x s).card := by
          rw [Finset.card_insert_of_not_mem hx]
          omega
        have hminR : ∀ y ∈ insert x s, x ≤ y := by
          intro y hy
          rcases Finset.mem_insert.mp hy with rfl | hy
          · exact le_refl _
          · exact le_of_lt (lt_of_lt_of_le hlt (hmin y hy))
        have hR : trim (insert x s) = trim s := by
          rw [trim_erase_min (Finset.mem_insert_self x s) hminR hcardR,
            Finset.erase_insert hx]
        have hcardt : (trim s).card = MaxOfflineMessages := by
          rw [card_trim]
          omega
        have hxnott : x ∉ trim s := fun hc => hx (trim_subset s hc)
        have hcardL : MaxOfflineMessages < (insert x (trim s)).card := by
          rw [Finset.card_insert_of_not_mem hxnott]
          omega
        have hminL : ∀ y ∈ insert x (trim s), x ≤ y := by
          intro y hy
          rcases Finset.mem_insert.mp hy with rfl | hy
          · exact le_refl _
          · exact le_of_lt (lt_of_lt_of_le hlt (hmin y (trim_subset s hy)))
        have hL : trim (insert x (trim s)) = trim (trim s) := by
          rw [trim_erase_min (Finset.mem_insert_self x (trim s)) hminL hcardL,
            Finset.erase_insert hxnott]
        rw [hL, hR, trim_eq_self (le_of_eq hcardt)]
      · -- x is above the least entry: evict the least entry first on both sides
        have hstep : trim s = trim (s.erase m) := trim_erase_min hmem hmin h
        have hxe : x ∉ s.erase m := fun hc => hx (Finset.mem_of_mem_erase hc)
        have hRHS : trim (insert x s) = trim (insert x (s.erase m)) := by
          have hcardR : MaxOfflineMessages < (insert x s).card := by
            rw [Finset.card_insert_of_not_mem hx]
            omega
          have hminR : ∀ y ∈ insert x s, m ≤ y := by
            intro y hy
            rcases Finset.mem_insert.mp hy with rfl | hy
            · exact le_of_lt hgt
            · exact hmin y hy
          rw [trim_erase_min (Finset.mem_insert_of_mem hmem) hminR hcardR,
            Finset.erase_insert_of_ne hxm]
        calc trim (insert x (trim s))
            = trim (insert x (trim (s.erase m))) := by rw [← hstep]
          _ = trim (insert x (s.erase m)) := ih (s.erase m) (Finset.erase_ssubset hmem) hxe
          _ = trim (insert x s) := hRHS.symm

/-- A mailbox maintained by `Store` over a run of distinct inserts is
exactly the trimmed set of everything inserted. -/
theorem foldl_store_eq_trim : ∀ xs : List ℤ, xs.Nodup →
    xs.foldl Store ∅ = trim xs.toFinset := by
  intro xs
  induction xs using List.reverseRecOn with
  | nil =>
    intro _
    rw [List.foldl_nil, List.toFinset_nil, trim_eq_self (by simp [MaxOfflineMessages])]
  | append_singleton xs x ih =>
    intro h
    rw [List.nodup_append] at h
    obtain ⟨h1, -, h3⟩ := h
    have hx : x ∉ xs := fun hc => h3 hc (List.mem_singleton_self x)
    have hxf : x ∉ xs.toFinset := fun hc => hx (List.mem_toFinset.mp hc)
    rw [List.foldl_append, List.foldl_cons, List.foldl_nil, ih h1]
    show trim (insert x (trim xs.toFinset)) = _
    rw [trim_insert_trim x xs.toFinset hxf]
    congr 1
    rw [List.toFinset_append]
    ext y
    simp [or_comm]

/-- C4.  Mailbox cap and eviction order: over any run of more than 1000
`Store` inserts with pairwise-distinct seqIDs, starting from an empty
mailbox, exactly 1000 entries remain, and every retained seqID is
strictly greater than every evicted one (the lowest-seqID entries are
the ones evicted). -/
theorem offline_store_cap (xs : List ℤ) (h1 : xs.Nodup) (h2 : 1000 < xs.length) :
    (xs.foldl Store ∅).card = 1000 ∧
    ∀ r ∈ xs.foldl Store ∅, ∀ e ∈ xs, e ∉ xs.foldl Store ∅ → e < r := by
  have hfold := foldl_store_eq_trim xs h1
  have hcardX : xs.toFinset.card = xs.length := List.toFinset_card_of_nodup h1
  constructor
  · rw [hfold, card_trim]
    have hM : MaxOfflineMessages = 1000 := rfl
    omega
  · intro r hr e he hne
    rw [hfold] at hr hne
    exact trim_keeps_top hr (List.mem_toFinset.mpr he) hne

/-- Witness for C4: 1001 distinct inserts (seqIDs 0..1000) leave exactly
1000 entries. -/
theorem offline_store_cap_witness :
    (seqRun.foldl Store ∅).card = 1000 := by
  have h1 : seqRun.Nodup :=
    List.Nodup.map (fun a b hab => Int.ofNat.inj hab) (List.nodup_range 1001)
  have h2 : 1000 < seqRun.length := by
    rw [seqRun, List.length_map, List.length_range]
    omega
  exact (offline_store_cap seqRun h1 h2).1

/-- C5.  Acknowledgement-driven trimming: after `Remove s a`, no entry
with seqID `≤ a` remains; entries with seqID `> a` are exactly those of
the original mailbox (so their count is unaffected); and `Remove` is
idempotent. -/
theorem offline_remove_spec (s : Finset ℤ) (a : ℤ) :
    (∀ y ∈ Remove s a, a < y) ∧
    (∀ y : ℤ, a < y → (y ∈ Remove s a ↔ y ∈ s)) ∧
    Remove (Remove s a) a = Remove s a := by
  refine ⟨?_, ?_, ?_⟩
  · intro y hy
    exact (Finset.mem_filter.mp hy).2
  · intro y hy
    rw [Remove, Finset.mem_filter]
    exact ⟨fun h => h.1, fun h => ⟨h, hy⟩⟩
  · unfold Remove
    rw [Finset.filter_filter]
    apply Finset.filter_congr
    intro y _
    simp

/-- Witness for C5: on the mailbox `{1, 2, 3}` with ack 2, entry 3
survives and a second `Remove` is a no-op. -/
theorem offline_remove_spec_witness :
    ((3 : ℤ) ∈ Remove {1, 2, 3} 2 ↔ (3 : ℤ) ∈ ({1, 2, 3} : Finset ℤ)) ∧
    Remove (Remove {1, 2, 3} 2) 2 = Remove {1, 2, 3} 2 :=
  ⟨(offline_remove_spec {1, 2, 3} 2).2.1 3 (by decide),
    (offline_remove_spec {1, 2, 3} 2).2.2⟩

end OfflineManager

namespace Server

/-- C6 counterexample: with the close signal already fired but space in
the outbound queue, both the enqueue case and the close case of the
select are ready, and Go chooses between them at random — so `enqueued`
(a `nil` return, not `ConnectionClosed`) is a possible outcome of `Send`
after close. -/
theorem send_closed_counterexample :
    SendResult.enqueued ∈ sendOutcomes { closed := true, queueLen := 0 } ∧
    SendResult.enqueued ≠ SendResult.closedErr := by
  constructor
  · show SendResult.enqueued ∈ [SendResult.enqueued, SendResult.closedErr]
    exact List.mem_cons_self _ _
  · decide

/-- C6 (amended).  `Send` never blocks: the select always has an
outcome.  If the close signal has fired and the queue is full, the only
outcome is `ConnectionClosed`; if the close signal has fired but the
queue has space, the select resolves to either an enqueue (success) or
`ConnectionClosed`.  If the connection is open and the queue is full,
the only outcome is to drop the message and return success; if it is
open with queue space, the message is enqueued. -/
theorem send_nonblocking_spec (st : ConnState) :
    (st.closed = true → 256 ≤ st.queueLen → sendOutcomes st = [SendResult.closedErr]) ∧
    (st.closed = true → st.queueLen < 256 →
      sendOutcomes st = [SendResult.enqueued, SendResult.closedErr]) ∧
    (st.closed = false → 256 ≤ st.queueLen →
      sendOutcomes st = [SendResult.dropped] ∧ SendResult.dropped.returnsNil = true) ∧
    (st.closed = false → st.queueLen < 256 → sendOutcomes st = [SendResult.enqueued]) ∧
    sendOutcomes st ≠ [] := by
  obtain ⟨c, q⟩ := st
  have hcap : writeChanCap = 256 := rfl
  cases c <;> by_cases hq : q < 256 <;>
    simp_all [sendOutcomes, writeChanCap, SendResult.returnsNil]

/-- Witness for C6: concrete states exercising the full-queue branches. -/
theorem send_nonblocking_spec_witness :
    sendOutcomes { closed := false, queueLen := 256 } = [SendResult.dropped] ∧
    sendOutcomes { closed := true, queueLen := 256 } = [SendResult.closedErr] :=
  ⟨((send_nonblocking_spec { closed := false, queueLen := 256 }).2.2.1 rfl (Nat.le_refl 256)).1,
    (send_nonblocking_spec { closed := true, queueLen := 256 }).1 rfl (Nat.le_refl 256)⟩

/-- C8.  Rebinding a user replaces the prior binding: after
`BindUser u c1` then `BindUser u c2`, `GetByUserID u` returns `c2`, and
(for `c1 ≠ c2`) never `c1` — `GetByUserID` reads the registry without
mutating it, so every later lookup on this state agrees. -/
theorem bindUser_replaces (st : RegistryState) (u : String) (c1 c2 : Nat) :
    GetByUserID u (BindUser u c2 (BindUser u c1 st)) = some c2 ∧
    (c1 ≠ c2 → GetByUserID u (BindUser u c2 (BindUser u c1 st)) ≠ some c1) := by
  constructor
  · simp [GetByUserID, BindUser]
  · intro hne
    simp only [GetByUserID, BindUser, if_pos rfl]
    intro hc
    exact hne (Option.some.inj hc).symm

/-- Witness for C8: concrete registry, user and connections. -/
theorem bindUser_replaces_witness :
    GetByUserID "u" (BindUser "u" 2 (BindUser "u" 1 emptyRegistry)) ≠ some 1 :=
  (bindUser_replaces emptyRegistry "u" 1 2).2 (by omega)

/-- C10.  `Remove` deletes the `userConns` entry keyed by the removed
connection's own `UserID` field, which rebinding never clears: after
`BindUser u c1` then `BindUser u c2`, removing the displaced connection
`c1` deletes user `u`'s entry, so `GetByUserID u` finds no connection —
the live binding to `c2` is erased. -/
theorem remove_displaced_erases_binding (st : RegistryState) (u : String) (c1 c2 : Nat)
    (hu : u ≠ "") (hne : c1 ≠ c2) :
    GetByUserID u (Remove c1 (BindUser u c2 (BindUser u c1 st))) = none := by
  have huser : (BindUser u c2 (BindUser u c1 st)).connUser c1 = u := by
    simp [BindUser, if_neg hne]
  simp [GetByUserID, Remove, huser, hu]

/-- Witness for C10: user "u" on connections 1 then 2; removing 1 leaves
"u" with no connection. -/
theorem remove_displaced_erases_binding_witness :
    GetByUserID "u" (Remove 1 (BindUser "u" 2 (BindUser "u" 1 emptyRegistry))) = none :=
  remove_displaced_erases_binding emptyRegistry "u" 1 2 (by decide) (by omega)

end Server

namespace Service

/-- C2 (the offline-replay path evaluated on scenario S2's mailbox):
after the three offline messages with seqIDs 1, 2, 3 are stored,
`DeliverOfflineMessages` writes them to the reconnecting client's
connection in the order 3, 2, 1 — newest first, not the ascending seqID
order the specification mandates.  The code fetches with `FetchLatest`
(`ZREVRANGE`, descending) and iterates without reversing, contradicting
its own comment that message synchronisation must use ascending order. -/
theorem deliver_offline_newest_first :
    DeliverOfflineMessages
        (OfflineManager.Store (OfflineManager.Store (OfflineManager.Store ∅ 1) 2) 3) =
      [3, 2, 1] ∧
    ([3, 2, 1] : List ℤ) ≠ [1, 2, 3] := by
  constructor
  · have hstore :
        OfflineManager.Store (OfflineManager.Store (OfflineManager.Store ∅ 1) 2) 3 =
          ({1, 2, 3} : Finset ℤ) := by decide
    have hsort : Finset.sort (· ≤ ·) ({1, 2, 3} : Finset ℤ) = [1, 2, 3] := by
      rw [show ({1, 2, 3} : Finset ℤ) = insert 1 (insert 2 {3}) from rfl,
        Finset.sort_insert (· ≤ ·) (by decide) (by decide),
        Finset.sort_insert (· ≤ ·) (by decide) (by decide),
        Finset.sort_singleton]
    rw [DeliverOfflineMessages, OfflineManager.FetchLatest, hstore, hsort]
    rfl
  · decide

/-- C7.  When the session-directory lookup of the recipient's gateway
fails — `redis.Nil` (not online) or any store error — `SendPrivateMessage`
stores the message into the recipient's offline mailbox carrying the
seqID already allocated for the conversation, and performs no local
delivery and no publish. -/
theorem sendPrivate_offline_on_lookup_failure
    (gatewayID fromUserID toUserID : String)
    (nextSeq : String → Except StoreErr ℤ)
    (getUserGateway : String → Except StoreErr String)
    (seqID : ℤ) (e : StoreErr)
    (hseq : nextSeq (getConversationID fromUserID toUserID) = .ok seqID)
    (hgw : getUserGateway toUserID = .error e) :
    SendPrivateMessage gatewayID nextSeq getUserGateway fromUserID toUserID =
      .storeOffline toUserID seqID ∧
    (∀ g t q, SendPrivateMessage gatewayID nextSeq getUserGateway fromUserID toUserID ≠
      .publishRemote g t q) ∧
    (∀ t q, SendPrivateMessage gatewayID nextSeq getUserGateway fromUserID toUserID ≠
      .deliverLocal t q) := by
  unfold SendPrivateMessage
  rw [hseq, hgw]
  refine ⟨rfl, ?_, ?_⟩
  · intro g t q hc
    exact DispatchAction.noConfusion hc
  · intro t q hc
    exact DispatchAction.noConfusion hc

/-- Witness for C7: concrete oracles — the allocator returns seqID 7,
the directory lookup fails with "store unreachable". -/
theorem sendPrivate_offline_on_lookup_failure_witness :
    SendPrivateMessage "gateway_1" (fun _ => .ok 7) (fun _ => .error .unreachable)
      "alice" "bob" = .storeOffline "bob" 7 :=
  (sendPrivate_offline_on_lookup_failure "gateway_1" "alice" "bob"
    (fun _ => .ok 7) (fun _ => .error .unreachable) 7 .unreachable rfl rfl).1

/-- C9.  When the token validates but the session-directory `Login`
write fails, `handleAuth` still replies `AuthAck{success:true}` with the
userID (the failure is only logged), the user is bound in the registry,
and offline delivery is started; indeed the outcome is identical to the
one with a successful login. -/
theorem handleAuth_login_failure_still_acks (tok : String)
    (validateToken : String → Except AuthErr Claims) (claims : Claims) (e : StoreErr)
    (hval : validateToken tok = .ok claims) :
    handleAuth (some tok) validateToken (.error e) =
      { replySuccess := true, replyMessage := claims.userID,
        bound := some claims.userID, deliverStarted := true } ∧
    handleAuth (some tok) validateToken (.error e) =
      handleAuth (some tok) validateToken (.ok ()) := by
  simp only [handleAuth]
  rw [hval]
  exact ⟨rfl, trivial⟩

/-- Witness for C9: a concrete validator accepting the token as user
"alice" while the login write fails. -/
theorem handleAuth_login_failure_still_acks_witness :
    handleAuth (some "tok") (fun _ => .ok { userID := "alice", username := "Alice" })
        (.error .unreachable) =
      { replySuccess := true, replyMessage := "alice",
        bound := some "alice", deliverStarted := true } :=
  (handleAuth_login_failure_still_acks "tok"
    (fun _ => .ok { userID := "alice", username := "Alice" })
    { userID := "alice", username := "Alice" } .unreachable rfl).1

end Service

end GoIM
